import Mathlib

/-!
Shallow embedding of the export pipeline of `neo-assetmaker-dev`
(`src/core/export_service.py` and `src/ui/image_preview_widget.py`).

Conventions of the embedding:
* a decoded bitmap (`numpy` array of shape `h × w × c`) is a `Bitmap`:
  explicit height, width and channel count, and a total pixel function
  (out-of-bounds lookups are never relied upon);
* pixel channel values are `Nat` (the code stores `uint8`; all values the
  code writes are produced by `struct.pack("BBBB", ...)` from in-range
  bytes, so no wrap-around modelling is needed);
* Python float arithmetic on geometry (`min(256/w, 256/h)`, `int(h*scale)`)
  is modelled by exact rational arithmetic with `Int.floor` for `int(...)`
  (truncation towards zero of a non-negative value is the floor);
* `cv2.resize` is an external library routine; `resize` below models its
  dimension contract exactly and its pixel values by nearest-neighbour
  sampling.  No theorem in this file depends on the interpolated values,
  only on the dimensions of the result and on values outside pasted
  regions;
* the Qt signal emissions of `ExportWorker.run` are modelled as a list of
  notifications produced in emission order, and the written file as the
  list of bytes produced in write order;
* the asynchronous cancellation flag `self._cancelled` is modelled, for
  the per-row serialisation loop, as the function `cancelledAt` giving the
  value the loop observes at the check preceding row `y`.
-/

namespace AssetMaker

/-- Size constants of the reference system (`config` values, also literal in
`src/ui/main_window.py`). -/
def SCREEN_WIDTH : Nat := 360

/-- Screen height (640). -/
def SCREEN_HEIGHT : Nat := 640

/-- Logo canvas width (256). -/
def LOGO_WIDTH : Nat := 256

/-- Logo canvas height (256). -/
def LOGO_HEIGHT : Nat := 256

/-- Target video width (384). -/
def VIDEO_WIDTH : Nat := 384

/-- One pixel: blue, green, red, alpha channel values (the code stores BGR(A)
order in memory, mirroring OpenCV). For a 3-channel bitmap the `a` field is
meaningless and ignored by all operations that respect the channel count. -/
structure Pixel where
  b : Nat
  g : Nat
  r : Nat
  a : Nat
deriving DecidableEq, Repr

/-- A decoded bitmap: `h` rows, `w` columns, `c` channels (3 = BGR, 4 = BGRA),
row-major, with `pix y x` the pixel at row `y`, column `x`. -/
structure Bitmap where
  h : Nat
  w : Nat
  c : Nat
  pix : Nat → Nat → Pixel

/-- Model of `cv2.rotate(mat, cv2.ROTATE_180)`: pixel `(y, x)` of the result is pixel
`(h-1-y, w-1-x)` of the input. -/
def rot180 (m : Bitmap) : Bitmap :=
  ⟨m.h, m.w, m.c, fun y x => m.pix (m.h - 1 - y) (m.w - 1 - x)⟩

/-- Model of `mat[::-1, :, :]` (vertical flip): pixel `(y, x)` of the result is pixel
`(h-1-y, x)` of the input. -/
def vflip (m : Bitmap) : Bitmap :=
  ⟨m.h, m.w, m.c, fun y x => m.pix (m.h - 1 - y) x⟩

/-- Horizontal mirror: pixel `(y, x)` of the result is pixel `(y, w-1-x)` of
the input.  Not in the source; stated by the spec as the net effect of
`vflip ∘ rot180` (claim C4). -/
def hmirror (m : Bitmap) : Bitmap :=
  ⟨m.h, m.w, m.c, fun y x => m.pix y (m.w - 1 - x)⟩

/-- Model of `cv2.resize(src, (nw, nh))`: a bitmap of exactly the requested
dimensions; pixel values by nearest-neighbour sampling (the code's
`INTER_CUBIC` interpolation is an external floating-point routine; no theorem
depends on these sampled values, only on the result's dimensions). -/
def resize (m : Bitmap) (nw nh : Nat) : Bitmap :=
  ⟨nh, nw, m.c, fun y x => m.pix (y * m.h / nh) (x * m.w / nw)⟩

/-- Model of `cv2.cvtColor(·, COLOR_BGR2BGRA)` / `COLOR_GRAY2BGRA`, applied when the
array does not already have 4 channels: the result has 4 channels and alpha
255 everywhere; a 4-channel input is returned unchanged. -/
def toBGRA (m : Bitmap) : Bitmap :=
  if m.c = 4 then m
  else ⟨m.h, m.w, 4, fun y x => ⟨(m.pix y x).b, (m.pix y x).g, (m.pix y x).r, 255⟩⟩

/-- Model of `_parse_argb_color(argb)` (image_preview_widget.py lines 63-68): split a
32-bit ARGB integer into `(a, r, g, b)` byte values. -/
def parse_argb_color (argb : Nat) : Nat × Nat × Nat × Nat :=
  (argb / 2 ^ 24 % 256, argb / 2 ^ 16 % 256, argb / 2 ^ 8 % 256, argb % 256)

/-- The uniform scale of the logo transform:
`min(LOGO_WIDTH / img_w, LOGO_HEIGHT / img_h)` (line 72). -/
def logoScale (image : Bitmap) : ℚ :=
  min ((LOGO_WIDTH : ℚ) / image.w) ((LOGO_HEIGHT : ℚ) / image.h)

/-- The value `new_w = int(img_w * scale)` (line 73); `int` of a non-negative float is
its floor. -/
def logoNewW (image : Bitmap) : Nat := (⌊(image.w : ℚ) * logoScale image⌋).toNat

/-- The value `new_h = int(img_h * scale)` (line 73). -/
def logoNewH (image : Bitmap) : Nat := (⌊(image.h : ℚ) * logoScale image⌋).toNat

/-- Model of `_process_logo` (image_preview_widget.py lines 70-93): scale the source
uniformly to fit 256×256, paste it centered into a zero-initialised 256×256
BGRA canvas (`np.zeros`), fill a 360×640 screen canvas with the parsed
background color, and paste the logo canvas centered into it. -/
def process_logo (bg : Nat) (image : Bitmap) : Bitmap :=
  let new_w := logoNewW image
  let new_h := logoNewH image
  let logo := toBGRA (resize image new_w new_h)
  let sx := (LOGO_WIDTH - new_w) / 2
  let sy := (LOGO_HEIGHT - new_h) / 2
  let logo_full : Bitmap := ⟨LOGO_HEIGHT, LOGO_WIDTH, 4, fun y x =>
    if sy ≤ y ∧ y < sy + new_h ∧ sx ≤ x ∧ x < sx + new_w then
      logo.pix (y - sy) (x - sx)
    else ⟨0, 0, 0, 0⟩⟩
  let p := parse_argb_color bg
  let lx := SCREEN_WIDTH / 2 - LOGO_WIDTH / 2
  let ly := SCREEN_HEIGHT / 2 - LOGO_HEIGHT / 2
  ⟨SCREEN_HEIGHT, SCREEN_WIDTH, 4, fun y x =>
    if ly ≤ y ∧ y < ly + LOGO_HEIGHT ∧ lx ≤ x ∧ x < lx + LOGO_WIDTH then
      logo_full.pix (y - ly) (x - lx)
    else ⟨p.2.2.2, p.2.2.1, p.2.1, p.1⟩⟩

/-- The value `rh = int(img_h * scale)` with `scale = tw / img_w`
(image_preview_widget.py lines 97-98): the height of the width-fitted
scaled image. -/
def ovScaledH (image : Bitmap) (tw : Nat) : Nat :=
  (⌊(image.h : ℚ) * ((tw : ℚ) / image.w)⌋).toNat

/-- Model of `_process_overlay_or_display` (image_preview_widget.py lines 95-115):
scale the source so its width is exactly `tw` (height `int(h * tw/w)`),
convert to BGRA, crop to the top `th` rows (`resized[:th, :tw, :]`), then
pad with fully-transparent rows above if the height is short of `th`, and
with fully-transparent columns at the right if the width is short of `tw`
(the width branch is dead: the resized width is already `tw`). -/
def process_overlay_or_display (image : Bitmap) (tw th : Nat) : Bitmap :=
  let rh := ovScaledH image tw
  let resized := toBGRA (resize image tw rh)
  let cropH := min rh th
  let cropW := min tw tw
  ⟨th, tw, 4, fun y x =>
    if cropW ≤ x then ⟨0, 0, 0, 0⟩
    else if y < th - cropH then ⟨0, 0, 0, 0⟩
    else resized.pix (y - (th - cropH)) x⟩

/-- The four bytes `struct.pack("BBBB", b, g, r, 255)` written for one pixel
by `_generate_logo` (export_service.py lines 227-228): the first three
channels (`mat[y, x][:3]`), alpha forced to 255. -/
def pixel_bytes_logo (m : Bitmap) (y x : Nat) : List Nat :=
  [(m.pix y x).b, (m.pix y x).g, (m.pix y x).r, 255]

/-- The four bytes written for one pixel by `_generate_overlay_display`
(export_service.py lines 248-253): alpha from the fourth channel when
the bitmap has 4 channels, else 255. -/
def pixel_bytes_ov (m : Bitmap) (y x : Nat) : List Nat :=
  if m.c = 4 then
    [(m.pix y x).b, (m.pix y x).g, (m.pix y x).r, (m.pix y x).a]
  else
    [(m.pix y x).b, (m.pix y x).g, (m.pix y x).r, 255]

/-- The bytes of one row, `for x in range(w): f.write(struct.pack(...))`. -/
def row_bytes (pb : Nat → Nat → List Nat) (w y : Nat) : List Nat :=
  (List.range w).flatMap (fun x => pb y x)

/-- The per-row write loop shared by both codec variants
(`for y in range(h): if self._cancelled: raise InterruptedError("导出已取消")`,
export_service.py lines 223-228 and 244-253): returns the bytes written to
the (partially written, left in place) file, and the cancellation error if
it was raised.  `cancelledAt y` is the value of the asynchronous flag
`self._cancelled` that the loop observes at the check preceding row `y`;
the second argument is the row about to be written, the third the number of
rows still to write. -/
def write_loop (cancelledAt : Nat → Bool) (row : Nat → List Nat) :
    Nat → Nat → List Nat × Option String
  | _, 0 => ([], none)
  | y, rem + 1 =>
    if cancelledAt y then ([], some "导出已取消")
    else
      let r := write_loop cancelledAt row (y + 1) rem
      (row y ++ r.1, r.2)

/-- Model of `_generate_logo` (export_service.py lines 208-228): rotate the bitmap
180°, flip it vertically, then run the per-row write loop with alpha forced
to 255. -/
def generate_logo (cancelledAt : Nat → Bool) (mat : Bitmap) :
    List Nat × Option String :=
  let m := vflip (rot180 mat)
  write_loop cancelledAt (fun y => row_bytes (pixel_bytes_logo m) m.w y) 0 m.h

/-- Model of `_generate_overlay_display` (export_service.py lines 230-253): rotate the
bitmap 180°, then run the per-row write loop with alpha from the fourth
channel if present. -/
def generate_overlay_display (cancelledAt : Nat → Bool) (mat : Bitmap) :
    List Nat × Option String :=
  let m := rot180 mat
  write_loop cancelledAt (fun y => row_bytes (pixel_bytes_ov m) m.w y) 0 m.h

/-- The never-set cancellation flag. -/
def noCancel : Nat → Bool := fun _ => false

/-- Model of `frame[y:y+h, x:x+w]` (export_service.py line 292): numpy slicing, with
the clamping numpy applies when the slice reaches past the frame border. -/
def crop (f : Bitmap) (x y w h : Nat) : Bitmap :=
  ⟨min h (f.h - y), min w (f.w - x), f.c, fun yy xx => f.pix (y + yy) (x + xx)⟩

/-- The per-frame pipeline of `_generate_video` (export_service.py lines
290-300): crop to the cropbox `(x, y, w, h)`, rotate 180°, resize to the
fixed SCREEN size, then if `VIDEO_WIDTH` exceeds the width, prepend that
many black columns (`np.hstack([padding, frame])`, a 3-channel zero block)
on the left. -/
def process_video_frame (cropbox : Nat × Nat × Nat × Nat) (frame : Bitmap) :
    Bitmap :=
  let f1 := crop frame cropbox.1 cropbox.2.1 cropbox.2.2.1 cropbox.2.2.2
  let f2 := rot180 f1
  let f3 := resize f2 SCREEN_WIDTH SCREEN_HEIGHT
  let padding_width := VIDEO_WIDTH - f3.w
  if 0 < padding_width then
    ⟨f3.h, padding_width + f3.w, f3.c, fun y x =>
      if x < padding_width then ⟨0, 0, 0, 0⟩ else f3.pix y (x - padding_width)⟩
  else f3

/-- A notification emitted by `ExportWorker` towards the UI: one of the
`progress_updated(pct, msg)`, `export_completed(msg)`, `export_failed(msg)`
signals, in emission order. -/
inductive Notif where
  | progress (pct : Nat) (msg : String)
  | completed (msg : String)
  | failed (msg : String)
deriving DecidableEq, Repr

/-- Recogniser for the failure notification, used to count the failure
notifications of a trace. -/
def Notif.isFailed : Notif → Bool
  | .failed _ => true
  | _ => false

/-- A task payload as far as the orchestrator's progress logic observes it:
an image matrix, or video parameters reduced to the frame count
`end_frame - start_frame`. -/
inductive Payload where
  | image
  | video (totalFrames : Nat)
deriving DecidableEq, Repr

/-- An export task as `ExportWorker.run` sees it: the kind string
(`task.export_type.value`), the output file name, the payload, and — the
environment's input to the model — the error description if executing the
task raises, or `none` if it succeeds.  A failing task is modelled as
raising right after its initial progress emission. -/
structure MTask where
  kind : String
  output_path : String
  payload : Payload
  fails : Option String
deriving DecidableEq, Repr

/-- The value `base_progress = int((i / total_tasks) * 100)` (export_service.py line
167), the global percentage emitted before task `i` of `n`. -/
def base_progress (n i : Nat) : Nat := (⌊((i : ℚ) / n) * 100⌋).toNat

/-- The value `int((frame_index / total_frames) * (100 / total_tasks))` (line 307),
the within-task share of frame `fi`. -/
def frame_progress (n total fi : Nat) : Nat :=
  (⌊((fi : ℚ) / total) * ((100 : ℚ) / n)⌋).toNat

/-- The value `int(80 / total_tasks)` (line 317), the fixed encoding-phase share. -/
def encode_progress (n : Nat) : Nat := (⌊(80 : ℚ) / n⌋).toNat

/-- The progress notifications emitted inside `_generate_video` (lines
281-317): one per frame index divisible by 10 (emitted at the end of that
frame's loop body), then the fixed encoding-phase emission before invoking
ffmpeg. -/
def video_notifs (n base total : Nat) : List Notif :=
  ((List.range total).filter (fun fi => fi % 10 == 0)).map
    (fun fi => .progress (base + frame_progress n total fi)
      ("正在处理帧 " ++ toString fi ++ "/" ++ toString total ++ "..."))
  ++ [.progress (base + encode_progress n) "正在编码视频..."]

/-- The notifications a successfully executed task emits
(`_execute_task`, lines 188-206): the initial progress emission at the
task's base percentage, then the video emissions if it is a video task. -/
def task_notifs (n i : Nat) (t : MTask) : List Notif :=
  .progress (base_progress n i) ("正在导出 " ++ t.output_path ++ "...") ::
    match t.payload with
    | .image => []
    | .video total => video_notifs n (base_progress n i) total

/-- The task loop of `ExportWorker.run` (lines 161-175), with the
cancellation flag unset (cancelled sessions are outside claims C5-C7):
executes the tasks in order starting at index `i`, returning the executed
task indices, the notifications emitted by the loop, and whether all tasks
succeeded.  A failing task emits its initial progress notification, then
the loop emits the failure notification and returns. -/
def run_tasks (n : Nat) : Nat → List MTask → List Nat × List Notif × Bool
  | _, [] => ([], [], true)
  | i, t :: ts =>
    match t.fails with
    | some e =>
      ([i],
       [.progress (base_progress n i) ("正在导出 " ++ t.output_path ++ "..."),
        .failed ("导出 " ++ t.kind ++ " 失败: " ++ e)],
       false)
    | none =>
      let r := run_tasks n (i + 1) ts
      (i :: r.1, task_notifs n i t ++ r.2.1, r.2.2)

/-- The observable outcome of one session: executed task indices, the
notification sequence, and the `epconfig.txt` content if that file was
successfully written. -/
structure RunResult where
  executed : List Nat
  notifs : List Notif
  manifest : Option (List String)
deriving DecidableEq, Repr

/-- Model of `ExportWorker.run` (export_service.py lines 149-186) together with
`_generate_epconfig` (lines 348-358): an empty task list completes at once;
otherwise the tasks run in order, and on failure the session stops with the
failure notification already emitted by the loop.  If all tasks succeed and
the manifest map is non-empty, `epconfig.txt` is written as `key=value`
lines in insertion order; `epconfigFails` is the environment's input saying
whether that write raises — the exception is caught, logged and swallowed
(lines 352-358), so the session still emits `progress 100` and the
completion notification. -/
def run_session (tasks : List MTask) (epconfig : List (String × String))
    (epconfigFails : Bool) (outputDir : String) : RunResult :=
  if tasks.isEmpty then
    ⟨[], [.completed "没有需要导出的任务"], none⟩
  else
    let n := tasks.length
    let r := run_tasks n 0 tasks
    if r.2.2 then
      let written :=
        if epconfig.isEmpty then none
        else if epconfigFails then none
        else some (epconfig.map (fun kv => kv.1 ++ "=" ++ kv.2))
      ⟨r.1,
       r.2.1 ++ [.progress 100 "导出完成",
         .completed ("成功导出 " ++ toString n ++ " 个文件到 " ++ outputDir)],
       written⟩
    else ⟨r.1, r.2.1, none⟩

/-- The percentages of the progress notifications of a trace, in order. -/
def progressPcts (l : List Notif) : List Nat :=
  l.filterMap (fun nt =>
    match nt with
    | .progress p _ => some p
    | _ => none)

end AssetMaker

namespace AssetMaker

/-- C4: the Logo codec's pre-transform, `cv2.rotate(mat, ROTATE_180)` followed
by `mat[::-1, :, :]` (`_generate_logo`, export_service.py lines 216-217),
equals a pure horizontal mirror at every in-bounds pixel, and preserves the
dimensions and channel count. -/
theorem logo_pretransform_eq_hmirror (m : Bitmap) (y x : Nat)
    (hy : y < m.h) (hx : x < m.w) :
    (vflip (rot180 m)).pix y x = (hmirror m).pix y x ∧
    (vflip (rot180 m)).h = (hmirror m).h ∧
    (vflip (rot180 m)).w = (hmirror m).w ∧
    (vflip (rot180 m)).c = (hmirror m).c := by
  refine ⟨?_, rfl, rfl, rfl⟩
  simp only [vflip, rot180, hmirror]
  congr 1
  omega

/-- A small concrete bitmap used by witnesses. -/
def wBmp : Bitmap := ⟨2, 3, 4, fun y x => ⟨y, x, 0, 255⟩⟩

/-- The spec's worked logo example: a 100×50 source (50 rows, 100 columns),
4 channels, constant pixel. -/
def cexLogoBmp : Bitmap := ⟨50, 100, 4, fun _ _ => ⟨10, 20, 30, 255⟩⟩

/-- C1 counterexample: with source 100×50 and background `0xFFFFFFFF`, the
claim puts the opaque background color (white, `⟨255,255,255,255⟩` in BGRA)
at every remaining pixel of the centered logo canvas.  Pixel (192, 52) is the
top-left corner of the logo canvas (local coordinate (0, 0), above the
scaled 256×128 source which starts at local row 64), yet `_process_logo`
leaves it at the `np.zeros` value `⟨0,0,0,0⟩` — transparent black, not the
background color. -/
theorem process_logo_bars_not_background :
    (process_logo 0xFFFFFFFF cexLogoBmp).pix 192 52 = ⟨0, 0, 0, 0⟩ ∧
    (process_logo 0xFFFFFFFF cexLogoBmp).pix 192 52 ≠ ⟨255, 255, 255, 255⟩ := by
  have hH : logoNewH cexLogoBmp = 128 := by
    norm_num [logoNewH, logoScale, cexLogoBmp, LOGO_WIDTH, LOGO_HEIGHT] <;> rfl
  have hW : logoNewW cexLogoBmp = 256 := by
    norm_num [logoNewW, logoScale, cexLogoBmp, LOGO_WIDTH, LOGO_HEIGHT] <;> rfl
  have h : (process_logo 0xFFFFFFFF cexLogoBmp).pix 192 52 = ⟨0, 0, 0, 0⟩ := by
    simp only [process_logo, parse_argb_color, SCREEN_WIDTH, SCREEN_HEIGHT,
      LOGO_WIDTH, LOGO_HEIGHT, hH, hW]
    rw [if_pos (by omega), if_neg (by omega)]
  exact ⟨h, by rw [h]; simp⟩

/-- The conclusion of the amended claim C1, as a named predicate: the output
of the logo transform is the 360×640 screen canvas, filled with the parsed
background color outside the centered 256×256 logo canvas; inside the logo
canvas the source, scaled by the uniform factor `min(256/W, 256/H)` (with
`int` truncation of the scaled dimensions), is centered, and every remaining
pixel of the logo canvas is transparent black `⟨0,0,0,0⟩` (the `np.zeros`
fill), not the background color. -/
def LogoGeomSpec (bg : Nat) (image : Bitmap) (y x : Nat) : Prop :=
  (process_logo bg image).h = SCREEN_HEIGHT ∧
  (process_logo bg image).w = SCREEN_WIDTH ∧
  192 = (SCREEN_HEIGHT - LOGO_HEIGHT) / 2 ∧
  52 = (SCREEN_WIDTH - LOGO_WIDTH) / 2 ∧
  (¬ (192 ≤ y ∧ y < 192 + LOGO_HEIGHT ∧ 52 ≤ x ∧ x < 52 + LOGO_WIDTH) →
    (process_logo bg image).pix y x =
      ⟨bg % 256, bg / 2 ^ 8 % 256, bg / 2 ^ 16 % 256, bg / 2 ^ 24 % 256⟩) ∧
  (∀ v u, y = 192 + v → x = 52 + u → v < LOGO_HEIGHT → u < LOGO_WIDTH →
    (¬ ((LOGO_HEIGHT - logoNewH image) / 2 ≤ v ∧
          v < (LOGO_HEIGHT - logoNewH image) / 2 + logoNewH image ∧
        (LOGO_WIDTH - logoNewW image) / 2 ≤ u ∧
          u < (LOGO_WIDTH - logoNewW image) / 2 + logoNewW image) →
      (process_logo bg image).pix y x = ⟨0, 0, 0, 0⟩) ∧
    (((LOGO_HEIGHT - logoNewH image) / 2 ≤ v ∧
          v < (LOGO_HEIGHT - logoNewH image) / 2 + logoNewH image ∧
        (LOGO_WIDTH - logoNewW image) / 2 ≤ u ∧
          u < (LOGO_WIDTH - logoNewW image) / 2 + logoNewW image) →
      (process_logo bg image).pix y x =
        (toBGRA (resize image (logoNewW image) (logoNewH image))).pix
          (v - (LOGO_HEIGHT - logoNewH image) / 2)
          (u - (LOGO_WIDTH - logoNewW image) / 2)))

/-- C1 (amended): for every source bitmap with nonzero width and height, the
logo transform's output is the 360×640 canvas filled with the background
color, with a 256×256 logo canvas centered in it; inside the logo canvas the
source, scaled by `min(256/W, 256/H)`, is centered, and every remaining pixel
of the logo canvas is transparent black `⟨0,0,0,0⟩` (not the background
color). -/
theorem process_logo_geometry (bg : Nat) (image : Bitmap)
    (hw : 0 < image.w) (hh : 0 < image.h) (y x : Nat)
    (hy : y < SCREEN_HEIGHT) (hx : x < SCREEN_WIDTH) :
    LogoGeomSpec bg image y x := by
  unfold LogoGeomSpec
  refine ⟨rfl, rfl, by decide, by decide, ?_, ?_⟩
  · intro hout
    simp only [process_logo, parse_argb_color, SCREEN_WIDTH, SCREEN_HEIGHT,
      LOGO_WIDTH, LOGO_HEIGHT] at hout ⊢
    rw [if_neg (by omega)]
  · intro v u hyv hxu hv hu
    subst hyv
    subst hxu
    constructor
    · intro hout
      simp only [process_logo, parse_argb_color, SCREEN_WIDTH, SCREEN_HEIGHT,
        LOGO_WIDTH, LOGO_HEIGHT] at hout hv hu ⊢
      rw [if_pos (by omega), if_neg (by omega)]
    · intro hin
      simp only [process_logo, parse_argb_color, SCREEN_WIDTH, SCREEN_HEIGHT,
        LOGO_WIDTH, LOGO_HEIGHT] at hin hv hu ⊢
      rw [if_pos (by omega), if_pos (by omega)]
      norm_num

/-- Witness for C1 (amended) at the spec's worked example. -/
theorem process_logo_geometry_witness :
    (0 < cexLogoBmp.w ∧ 0 < cexLogoBmp.h ∧ 0 < SCREEN_HEIGHT ∧ 0 < SCREEN_WIDTH) ∧
    LogoGeomSpec 0xFFFFFFFF cexLogoBmp 0 0 :=
  ⟨⟨by decide, by decide, by decide, by decide⟩,
    process_logo_geometry 0xFFFFFFFF cexLogoBmp (by decide) (by decide) 0 0
      (by decide) (by decide)⟩

/-- Witness for C4 at a concrete bitmap and coordinate. -/
theorem logo_pretransform_eq_hmirror_witness :
    (1 < wBmp.h ∧ 0 < wBmp.w) ∧
    ((vflip (rot180 wBmp)).pix 1 0 = (hmirror wBmp).pix 1 0 ∧
     (vflip (rot180 wBmp)).h = (hmirror wBmp).h ∧
     (vflip (rot180 wBmp)).w = (hmirror wBmp).w ∧
     (vflip (rot180 wBmp)).c = (hmirror wBmp).c) :=
  ⟨⟨by decide, by decide⟩,
    logo_pretransform_eq_hmirror wBmp 1 0 (by decide) (by decide)⟩

/-- A 240-wide, 1-high opaque white source: scaling it to width 360 gives the
exact height 3/2. -/
def cexOvBmp : Bitmap := ⟨1, 240, 4, fun _ _ => ⟨255, 255, 255, 255⟩⟩

/-- C2 counterexample: the claim says the scaled height is
`round(H_src * scale)`; the code computes `int(H_src * scale)`, truncation.
For a 240×1 source and target width 360, `H * scale = 3/2`: the code's height
is 1 while `round(3/2) = 2`.  Observably, in the 360×640 canvas the code
leaves row 638 fully transparent, which under the claim would be an opaque
content row (bottom-aligned height-2 content of an opaque source). -/
theorem ov_scaled_height_not_round :
    ovScaledH cexOvBmp 360 = 1 ∧
    (round ((cexOvBmp.h : ℚ) * ((360 : ℚ) / cexOvBmp.w))).toNat = 2 ∧
    ovScaledH cexOvBmp 360 ≠
      (round ((cexOvBmp.h : ℚ) * ((360 : ℚ) / cexOvBmp.w))).toNat ∧
    (process_overlay_or_display cexOvBmp 360 640).pix 638 0 = ⟨0, 0, 0, 0⟩ := by
  have h1 : ovScaledH cexOvBmp 360 = 1 := by
    norm_num [ovScaledH, cexOvBmp]
  have h2 : (round ((cexOvBmp.h : ℚ) * ((360 : ℚ) / cexOvBmp.w))).toNat = 2 := by
    rw [round_eq]
    norm_num [cexOvBmp]
    rfl
  refine ⟨h1, h2, by omega, ?_⟩
  simp only [process_overlay_or_display, h1]
  rw [if_neg (by omega), if_pos (by omega)]

/-- The conclusion of the amended claim C2, as a named predicate: the output
canvas is `th × tw`; with `rh = int(H_src * tw / W_src)` (truncation, not
rounding), if `rh ≥ th` only the top `th` rows of the scaled image are kept,
and if `rh < th` the top `th - rh` rows of the canvas are fully transparent
`⟨0,0,0,0⟩` and the scaled image occupies the bottom `rh` rows
(bottom-aligned). -/
def OvSpec (image : Bitmap) (tw th y x : Nat) : Prop :=
  (process_overlay_or_display image tw th).h = th ∧
  (process_overlay_or_display image tw th).w = tw ∧
  (th ≤ ovScaledH image tw → y < th →
    (process_overlay_or_display image tw th).pix y x =
      (toBGRA (resize image tw (ovScaledH image tw))).pix y x) ∧
  (ovScaledH image tw < th →
    (y < th - ovScaledH image tw →
      (process_overlay_or_display image tw th).pix y x = ⟨0, 0, 0, 0⟩) ∧
    (th - ovScaledH image tw ≤ y → y < th →
      (process_overlay_or_display image tw th).pix y x =
        (toBGRA (resize image tw (ovScaledH image tw))).pix
          (y - (th - ovScaledH image tw)) x))

/-- C2 (amended): for every source bitmap with nonzero width, the source is
scaled by `scale = W_target / W_src` to width `W_target` and height
`int(H_src * scale)` (truncation, not `round`); if that height is at least
the target height only the top `H_target` rows are kept, and if it is less,
fully-transparent rows are added above the scaled image so it is
bottom-aligned in the `W_target × H_target` canvas. -/
theorem process_overlay_display_spec (image : Bitmap) (tw th y x : Nat)
    (hw : 0 < image.w) (hx : x < tw) : OvSpec image tw th y x := by
  unfold OvSpec process_overlay_or_display
  refine ⟨rfl, rfl, ?_, ?_⟩
  · intro hge hy
    simp only
    rw [if_neg (by omega)]
    rw [if_neg (by omega)]
    congr 1
    omega
  · intro hlt
    constructor
    · intro hy
      simp only
      rw [if_neg (by omega)]
      rw [if_pos (by omega)]
    · intro hy1 hy2
      simp only
      rw [if_neg (by omega)]
      rw [if_neg (by omega)]
      congr 1
      omega

/-- Witness for C2 (amended) at the 240×1 source, target 360×640, bottom
content row. -/
theorem process_overlay_display_spec_witness :
    (0 < cexOvBmp.w ∧ 0 < 360) ∧ OvSpec cexOvBmp 360 640 639 0 :=
  ⟨⟨by decide, by decide⟩,
    process_overlay_display_spec cexOvBmp 360 640 639 0 (by decide) (by decide)⟩

/-- Helper: a block of `m + 1` consecutive rows starting at `y` is row `y`
followed by the block of `m` rows starting at `y + 1`. -/
theorem flatMap_range_shift (row : Nat → List Nat) (y m : Nat) :
    (List.range (m + 1)).flatMap (fun i => row (y + i)) =
      row y ++ (List.range m).flatMap (fun i => row (y + 1 + i)) := by
  rw [List.range_succ_eq_map]
  simp only [List.flatMap_cons, Nat.add_zero]
  congr 1
  rw [List.flatMap_map]
  congr 1
  funext i
  show row (y + (i + 1)) = row (y + 1 + i)
  congr 1
  omega

/-- Helper: with the cancellation flag never set, the write loop writes all
`n` rows in order and raises nothing. -/
theorem write_loop_no_cancel (row : Nat → List Nat) (y n : Nat) :
    write_loop noCancel row y n =
      ((List.range n).flatMap (fun i => row (y + i)), none) := by
  induction n generalizing y with
  | zero => simp [write_loop]
  | succ n ih =>
    rw [write_loop]
    simp only [noCancel, Bool.false_eq_true, if_false]
    rw [ih (y + 1), flatMap_range_shift]

/-- Helper: if the flag is first observed set at row `k` and `k` lies inside
the loop's range, the loop writes exactly the rows before `k` and raises the
cancellation error. -/
theorem write_loop_cancel (cancelledAt : Nat → Bool) (row : Nat → List Nat)
    (y n k : Nat) (hyk : y ≤ k) (hkn : k < y + n)
    (hk : cancelledAt k = true)
    (hbefore : ∀ j, y ≤ j → j < k → cancelledAt j = false) :
    write_loop cancelledAt row y n =
      ((List.range (k - y)).flatMap (fun i => row (y + i)), some "导出已取消") := by
  induction n generalizing y with
  | zero => omega
  | succ n ih =>
    rw [write_loop]
    by_cases hy : y = k
    · subst hy
      simp [hk]
    · have hflag : cancelledAt y = false := hbefore y le_rfl (by omega)
      simp only [hflag, Bool.false_eq_true, if_false]
      rw [ih (y + 1) (by omega) (by omega)
        (fun j h1 h2 => hbefore j (by omega) h2)]
      have hky : k - y = (k - (y + 1)) + 1 := by omega
      rw [hky, flatMap_range_shift]

/-- Helper: every pixel of the logo variant contributes 4 bytes. -/
theorem pixel_bytes_logo_length (m : Bitmap) (y x : Nat) :
    (pixel_bytes_logo m y x).length = 4 := rfl

/-- Helper: every pixel of the overlay/display variant contributes 4 bytes. -/
theorem pixel_bytes_ov_length (m : Bitmap) (y x : Nat) :
    (pixel_bytes_ov m y x).length = 4 := by
  unfold pixel_bytes_ov
  split <;> rfl

/-- Helper: a row of `w` pixels at 4 bytes per pixel is `4 * w` bytes. -/
theorem row_bytes_length (pb : Nat → Nat → List Nat) (w y : Nat)
    (h : ∀ x, (pb y x).length = 4) : (row_bytes pb w y).length = 4 * w := by
  unfold row_bytes
  rw [List.length_flatMap]
  have : List.map (List.length ∘ fun x => pb y x) (List.range w) =
      List.map (fun _ => 4) (List.range w) := by
    apply List.map_congr_left
    intro a _
    exact h a
  rw [this]
  induction w with
  | zero => simp
  | succ w ih =>
    rw [List.range_succ, List.map_append, List.sum_append]
    simp [ih]
    omega

/-- Helper: indexed access into a concatenation of equal-length blocks. -/
theorem flatMap_fixed_get {α : Type} (f : α → List Nat) (L : Nat) (l : List α)
    (hf : ∀ a ∈ l, (f a).length = L) (i j : Nat) (hj : j < L)
    (hi : i < l.length) :
    (l.flatMap f)[i * L + j]? = (f (l.get ⟨i, hi⟩))[j]? := by
  induction l generalizing i with
  | nil => simp at hi
  | cons a l ih =>
    cases i with
    | zero =>
      simp only [List.flatMap_cons, Nat.zero_mul, Nat.zero_add]
      rw [List.getElem?_append_left (by rw [hf a (by simp)]; omega)]
      rfl
    | succ i =>
      simp only [List.flatMap_cons]
      have hlen : (f a).length = L := hf a (by simp)
      rw [List.getElem?_append_right (by rw [hlen, Nat.succ_mul]; omega)]
      rw [hlen]
      have harith : (i + 1) * L + j - L = i * L + j := by
        rw [Nat.succ_mul]; omega
      rw [harith]
      exact ih (fun b hb => hf b (by simp [hb])) i (by simpa using hi)

/-- Helper: a concatenation of equal-length blocks has length
`number of blocks * block length`. -/
theorem flatMap_fixed_length {α : Type} (f : α → List Nat) (L : Nat)
    (l : List α) (hf : ∀ a ∈ l, (f a).length = L) :
    (l.flatMap f).length = l.length * L := by
  induction l with
  | nil => simp
  | cons a l ih =>
    simp only [List.flatMap_cons, List.length_append, List.length_cons,
      hf a (by simp), ih (fun b hb => hf b (by simp [hb])), Nat.succ_mul]
    omega

/-- Helper: byte `4*(y*w+x)+k` of a row-major stream of 4-byte pixels is
byte `k` of pixel `(y, x)`. -/
theorem row_block_get (pb : Nat → Nat → List Nat) (h w y x k : Nat)
    (hpb : ∀ yy xx, (pb yy xx).length = 4)
    (hy : y < h) (hx : x < w) (hk : k < 4) :
    ((List.range h).flatMap (fun yy => row_bytes pb w yy))[4 * (y * w + x) + k]? =
      (pb y x)[k]? := by
  have hidx : 4 * (y * w + x) + k = y * (4 * w) + (4 * x + k) := by ring
  rw [hidx]
  rw [flatMap_fixed_get _ (4 * w) _
    (fun a _ => row_bytes_length pb w a (fun xx => hpb a xx))
    y (4 * x + k) (by omega) (by simpa using hy)]
  have hg : (List.range h).get ⟨y, by simpa using hy⟩ = y := by
    simp [List.get_eq_getElem, List.getElem_range]
  rw [hg]
  unfold row_bytes
  have hidx2 : 4 * x + k = x * 4 + k := by ring
  rw [hidx2]
  rw [flatMap_fixed_get _ 4 _ (fun a _ => hpb y a) x k hk (by simpa using hx)]
  have hg2 : (List.range w).get ⟨x, by simpa using hx⟩ = x := by
    simp [List.get_eq_getElem, List.getElem_range]
  rw [hg2]

/-- Helper: the logo codec's byte stream absent cancellation, as the
row-major concatenation of its per-pixel 4-byte blocks. -/
theorem generate_logo_bytes (mat : Bitmap) :
    generate_logo noCancel mat =
      ((List.range mat.h).flatMap (fun yy =>
        row_bytes (pixel_bytes_logo (vflip (rot180 mat))) mat.w yy), none) := by
  unfold generate_logo
  rw [write_loop_no_cancel]
  simp only [vflip, rot180, Nat.zero_add]

/-- Helper: the overlay/display codec's byte stream absent cancellation. -/
theorem generate_ov_bytes (mat : Bitmap) :
    generate_overlay_display noCancel mat =
      ((List.range mat.h).flatMap (fun yy =>
        row_bytes (pixel_bytes_ov (rot180 mat)) mat.w yy), none) := by
  unfold generate_overlay_display
  rw [write_loop_no_cancel]
  simp only [rot180, Nat.zero_add]

/-- The conclusion of claim C3, as a named predicate: absent cancellation,
the bytes written by `_generate_logo` are exactly the pixels of
`vflip(rot180(mat))` traversed row 0..h-1, column 0..w-1, four bytes
B, G, R, 255 each; the bytes written by `_generate_overlay_display` are the
pixels of `rot180(mat)` in the same order with the alpha byte taken from the
fourth channel when the bitmap has 4 channels and 255 otherwise; and the
byte at offset `4*(y*w+x)+k` is byte `k` of pixel `(y, x)` (no header or
footer). -/
def CodecSpec (mat : Bitmap) (y x : Nat) : Prop :=
  ((generate_logo noCancel mat).1 =
    (List.range mat.h).flatMap (fun yy =>
      (List.range mat.w).flatMap (fun xx =>
        [((vflip (rot180 mat)).pix yy xx).b, ((vflip (rot180 mat)).pix yy xx).g,
         ((vflip (rot180 mat)).pix yy xx).r, 255]))) ∧
  ((generate_overlay_display noCancel mat).1 =
    (List.range mat.h).flatMap (fun yy =>
      (List.range mat.w).flatMap (fun xx =>
        [((rot180 mat).pix yy xx).b, ((rot180 mat).pix yy xx).g,
         ((rot180 mat).pix yy xx).r,
         if mat.c = 4 then ((rot180 mat).pix yy xx).a else 255]))) ∧
  ((generate_logo noCancel mat).1[4 * (y * mat.w + x)]? =
      some ((vflip (rot180 mat)).pix y x).b) ∧
  ((generate_logo noCancel mat).1[4 * (y * mat.w + x) + 1]? =
      some ((vflip (rot180 mat)).pix y x).g) ∧
  ((generate_logo noCancel mat).1[4 * (y * mat.w + x) + 2]? =
      some ((vflip (rot180 mat)).pix y x).r) ∧
  ((generate_logo noCancel mat).1[4 * (y * mat.w + x) + 3]? = some 255) ∧
  ((generate_overlay_display noCancel mat).1[4 * (y * mat.w + x)]? =
      some ((rot180 mat).pix y x).b) ∧
  ((generate_overlay_display noCancel mat).1[4 * (y * mat.w + x) + 1]? =
      some ((rot180 mat).pix y x).g) ∧
  ((generate_overlay_display noCancel mat).1[4 * (y * mat.w + x) + 2]? =
      some ((rot180 mat).pix y x).r) ∧
  ((generate_overlay_display noCancel mat).1[4 * (y * mat.w + x) + 3]? =
      some (if mat.c = 4 then ((rot180 mat).pix y x).a else 255))

/-- C3: pixel codec serialization writes exactly the transformed bitmap's
pixels in row-major order, 4 bytes per pixel in B, G, R, A order with no
header or footer; the Logo variant forces A to 255 and the Overlay/Display
variant takes A from the source's 4th channel when present, else 255. -/
theorem codec_serialization (mat : Bitmap) (y x : Nat)
    (hc : mat.c = 3 ∨ mat.c = 4) (hy : y < mat.h) (hx : x < mat.w) :
    CodecSpec mat y x := by
  have hL : (generate_logo noCancel mat).1 =
      (List.range mat.h).flatMap (fun yy =>
        row_bytes (pixel_bytes_logo (vflip (rot180 mat))) mat.w yy) := by
    rw [generate_logo_bytes]
  have hO : (generate_overlay_display noCancel mat).1 =
      (List.range mat.h).flatMap (fun yy =>
        row_bytes (pixel_bytes_ov (rot180 mat)) mat.w yy) := by
    rw [generate_ov_bytes]
  have hcO : (rot180 mat).c = mat.c := rfl
  refine ⟨?_, ?_, ?_, ?_, ?_, ?_, ?_, ?_, ?_, ?_⟩
  · rw [hL]; rfl
  · rw [hO]
    simp only [row_bytes, pixel_bytes_ov, hcO]
    congr 1
    funext yy
    congr 1
    funext xx
    split <;> simp_all
  · rw [hL, show 4 * (y * mat.w + x) = 4 * (y * mat.w + x) + 0 from rfl,
      row_block_get _ _ _ _ _ _ (fun yy xx => pixel_bytes_logo_length _ yy xx)
        hy hx (by omega)]
    rfl
  · rw [hL, row_block_get _ _ _ _ _ _
      (fun yy xx => pixel_bytes_logo_length _ yy xx) hy hx (by omega)]
    rfl
  · rw [hL, row_block_get _ _ _ _ _ _
      (fun yy xx => pixel_bytes_logo_length _ yy xx) hy hx (by omega)]
    rfl
  · rw [hL, row_block_get _ _ _ _ _ _
      (fun yy xx => pixel_bytes_logo_length _ yy xx) hy hx (by omega)]
    rfl
  · rw [hO, show 4 * (y * mat.w + x) = 4 * (y * mat.w + x) + 0 from rfl,
      row_block_get _ _ _ _ _ _ (fun yy xx => pixel_bytes_ov_length _ yy xx)
        hy hx (by omega)]
    simp only [pixel_bytes_ov, hcO]
    split <;> rfl
  · rw [hO, row_block_get _ _ _ _ _ _
      (fun yy xx => pixel_bytes_ov_length _ yy xx) hy hx (by omega)]
    simp only [pixel_bytes_ov, hcO]
    split <;> rfl
  · rw [hO, row_block_get _ _ _ _ _ _
      (fun yy xx => pixel_bytes_ov_length _ yy xx) hy hx (by omega)]
    simp only [pixel_bytes_ov, hcO]
    split <;> rfl
  · rw [hO, row_block_get _ _ _ _ _ _
      (fun yy xx => pixel_bytes_ov_length _ yy xx) hy hx (by omega)]
    simp only [pixel_bytes_ov, hcO]
    split <;> rfl

/-- Witness for C3 at a concrete 2×3 4-channel bitmap and pixel (1, 2). -/
theorem codec_serialization_witness :
    (wBmp.c = 3 ∨ wBmp.c = 4) ∧ 1 < wBmp.h ∧ 2 < wBmp.w ∧ CodecSpec wBmp 1 2 :=
  ⟨Or.inr (by decide), by decide, by decide,
    codec_serialization wBmp 1 2 (Or.inr (by decide)) (by decide) (by decide)⟩

/-- C10 (implicit): the pixel codec does not validate the canvas size — for
every bitmap with at least 3 channels, absent cancellation, both variants
write exactly `4 * h * w` bytes and raise nothing, whatever `h` and `w` are;
nothing in the codec forces the fixed SCREEN-sized layout. -/
theorem codec_writes_4hw (mat : Bitmap) (hc : 3 ≤ mat.c) :
    (generate_logo noCancel mat).1.length = 4 * (mat.h * mat.w) ∧
    (generate_logo noCancel mat).2 = none ∧
    (generate_overlay_display noCancel mat).1.length = 4 * (mat.h * mat.w) ∧
    (generate_overlay_display noCancel mat).2 = none := by
  refine ⟨?_, ?_, ?_, ?_⟩
  · rw [generate_logo_bytes]
    rw [flatMap_fixed_length _ (4 * mat.w) _
      (fun a _ => row_bytes_length _ _ a (fun xx => pixel_bytes_logo_length _ a xx))]
    simp [List.length_range]
    ring
  · rw [generate_logo_bytes]
  · rw [generate_ov_bytes]
    rw [flatMap_fixed_length _ (4 * mat.w) _
      (fun a _ => row_bytes_length _ _ a (fun xx => pixel_bytes_ov_length _ a xx))]
    simp [List.length_range]
    ring
  · rw [generate_ov_bytes]

/-- Witness for C10: a 2×3 4-channel bitmap yields 24 bytes from both
variants. -/
theorem codec_writes_4hw_witness :
    3 ≤ wBmp.c ∧
    ((generate_logo noCancel wBmp).1.length = 4 * (wBmp.h * wBmp.w) ∧
     (generate_logo noCancel wBmp).2 = none ∧
     (generate_overlay_display noCancel wBmp).1.length = 4 * (wBmp.h * wBmp.w) ∧
     (generate_overlay_display noCancel wBmp).2 = none) :=
  ⟨by decide, codec_writes_4hw wBmp (by decide)⟩

/-- The conclusion of claim C9, as a named predicate: when the cancellation
flag is first observed set at row `k` inside the per-row write loop, both
codec variants stop at that row boundary — the destination file holds
exactly the bytes of rows `0..k-1` (`4*k*w` bytes, left in place) — and the
task raises the cancellation error `"导出已取消"` instead of completing. -/
def CancelSpec (cancelledAt : Nat → Bool) (mat : Bitmap) (k : Nat) : Prop :=
  ((generate_logo cancelledAt mat).1 =
    (List.range k).flatMap (fun yy =>
      row_bytes (pixel_bytes_logo (vflip (rot180 mat))) mat.w yy)) ∧
  ((generate_logo cancelledAt mat).1.length = 4 * (k * mat.w)) ∧
  ((generate_logo cancelledAt mat).2 = some "导出已取消") ∧
  ((generate_overlay_display cancelledAt mat).1 =
    (List.range k).flatMap (fun yy =>
      row_bytes (pixel_bytes_ov (rot180 mat)) mat.w yy)) ∧
  ((generate_overlay_display cancelledAt mat).1.length = 4 * (k * mat.w)) ∧
  ((generate_overlay_display cancelledAt mat).2 = some "导出已取消")

/-- C9: if the session's cancellation flag becomes set while the per-row
write loop is in progress (first observed set at row `k < h`), the loop
stops at that row boundary with no further bytes written, the partial file
content is exactly the first `k` rows, and the task fails with the
cancellation message rather than completing. -/
theorem codec_cancellation (cancelledAt : Nat → Bool) (mat : Bitmap) (k : Nat)
    (hk : cancelledAt k = true)
    (hbefore : ∀ j, j < k → cancelledAt j = false)
    (hkh : k < mat.h) :
    CancelSpec cancelledAt mat k := by
  have hcut : ∀ row : Nat → List Nat,
      write_loop cancelledAt row 0 mat.h =
        ((List.range k).flatMap (fun i => row i), some "导出已取消") := by
    intro row
    rw [write_loop_cancel cancelledAt row 0 mat.h k (Nat.zero_le k)
      (by omega) hk (fun j _ h2 => hbefore j h2)]
    simp
  have hlogo : generate_logo cancelledAt mat =
      ((List.range k).flatMap (fun yy =>
        row_bytes (pixel_bytes_logo (vflip (rot180 mat))) mat.w yy),
       some "导出已取消") := by
    unfold generate_logo
    exact hcut _
  have hov : generate_overlay_display cancelledAt mat =
      ((List.range k).flatMap (fun yy =>
        row_bytes (pixel_bytes_ov (rot180 mat)) mat.w yy),
       some "导出已取消") := by
    unfold generate_overlay_display
    exact hcut _
  refine ⟨by rw [hlogo], ?_, by rw [hlogo], by rw [hov], ?_, by rw [hov]⟩
  · rw [hlogo]
    rw [flatMap_fixed_length _ (4 * mat.w) _
      (fun a _ => row_bytes_length _ _ a (fun xx => pixel_bytes_logo_length _ a xx))]
    simp [List.length_range]
    ring
  · rw [hov]
    rw [flatMap_fixed_length _ (4 * mat.w) _
      (fun a _ => row_bytes_length _ _ a (fun xx => pixel_bytes_ov_length _ a xx))]
    simp [List.length_range]
    ring

/-- Helper: the per-frame video pipeline, with the letterbox branch taken
and the constants evaluated (the post-resize width is always
`SCREEN_WIDTH = 360`, so `padding_width = 384 - 360 = 24 > 0`). -/
theorem process_video_frame_eq (cropbox : Nat × Nat × Nat × Nat)
    (frame : Bitmap) :
    process_video_frame cropbox frame =
      ⟨SCREEN_HEIGHT, 24 + SCREEN_WIDTH, frame.c, fun y x =>
        if x < 24 then ⟨0, 0, 0, 0⟩
        else (resize (rot180 (crop frame cropbox.1 cropbox.2.1 cropbox.2.2.1
          cropbox.2.2.2)) SCREEN_WIDTH SCREEN_HEIGHT).pix y (x - 24)⟩ := rfl

/-- C8: every decoded frame is cropped to the given rectangle, rotated 180°,
resized to the fixed 360×640 screen size, and — since the target video width
384 exceeds the post-resize width 360 — padded with a block of 24 black
columns on the left side only, yielding a 384-wide, 640-high frame with an
asymmetric left letterbox. -/
theorem video_frame_geometry (cropbox : Nat × Nat × Nat × Nat)
    (frame : Bitmap) (y x : Nat) :
    (process_video_frame cropbox frame).w = VIDEO_WIDTH ∧
    (process_video_frame cropbox frame).h = SCREEN_HEIGHT ∧
    VIDEO_WIDTH - SCREEN_WIDTH = 24 ∧
    (x < 24 → (process_video_frame cropbox frame).pix y x = ⟨0, 0, 0, 0⟩) ∧
    (24 ≤ x →
      (process_video_frame cropbox frame).pix y x =
        (resize (rot180 (crop frame cropbox.1 cropbox.2.1 cropbox.2.2.1
          cropbox.2.2.2)) SCREEN_WIDTH SCREEN_HEIGHT).pix y (x - 24)) := by
  rw [process_video_frame_eq]
  refine ⟨rfl, rfl, by decide, ?_, ?_⟩
  · intro hx
    simp only
    rw [if_pos hx]
  · intro hx
    simp only
    rw [if_neg (by omega)]

/-- Helper: a block of `m + 1` consecutive indices starting at `st`. -/
theorem map_range_shift (st m : Nat) :
    (List.range (m + 1)).map (fun j => st + j) =
      st :: (List.range m).map (fun j => st + 1 + j) := by
  rw [List.range_succ_eq_map]
  simp only [List.map_cons, Nat.add_zero, List.map_map]
  congr 1
  congr 1
  funext j
  simp only [Function.comp_apply]
  omega

/-- Helper: the task loop's success flag is true exactly when no task
raises. -/
theorem run_tasks_ok_iff (n st : Nat) (ts : List MTask) :
    (run_tasks n st ts).2.2 = true ↔ ∀ t ∈ ts, t.fails = none := by
  induction ts generalizing st with
  | nil => simp [run_tasks]
  | cons t ts ih =>
    cases hf : t.fails with
    | some e =>
      simp only [run_tasks, hf, List.forall_mem_cons]
      constructor
      · intro h
        simp at h
      · intro h
        simp at h
    | none =>
      simp only [run_tasks, hf, List.forall_mem_cons]
      rw [ih (st + 1)]
      simp

/-- Helper: when every task succeeds, the loop executes all indices in
order, emits the concatenation of the per-task notification blocks, and
reports success. -/
theorem run_tasks_notifs_ok (n st : Nat) (ts : List MTask)
    (h : ∀ t ∈ ts, t.fails = none) :
    run_tasks n st ts =
      ((List.range ts.length).map (fun j => st + j),
       (List.enumFrom st ts).flatMap (fun p => task_notifs n p.1 p.2),
       true) := by
  induction ts generalizing st with
  | nil => simp [run_tasks]
  | cons t ts ih =>
    have hf : t.fails = none := h t (by simp)
    simp only [run_tasks, hf]
    rw [ih (st + 1) (fun u hu => h u (by simp [hu]))]
    simp only [List.length_cons, map_range_shift, List.enumFrom,
      List.flatMap_cons]

/-- Helper: a successfully executed task emits no failure notification. -/
theorem task_notifs_no_failed (n i : Nat) (t : MTask) :
    (task_notifs n i t).filter Notif.isFailed = [] := by
  unfold task_notifs video_notifs
  cases t.payload with
  | image => simp [Notif.isFailed]
  | video total =>
    simp [Notif.isFailed, List.filter_append, List.filter_map, Function.comp]

/-- Helper: if the first failing task is at index `i`, the loop executes
exactly indices `st..st+i`, reports failure, and its notifications contain
exactly one failure notification, carrying the task kind and the error. -/
theorem run_tasks_fail (n : Nat) (ts : List MTask) (i : Nat) (t : MTask)
    (e : String) (ht : ts[i]? = some t) (he : t.fails = some e)
    (hpre : ∀ j u, j < i → ts[j]? = some u → u.fails = none) (st : Nat) :
    (run_tasks n st ts).1 = (List.range (i + 1)).map (fun j => st + j) ∧
    (run_tasks n st ts).2.2 = false ∧
    (run_tasks n st ts).2.1.filter Notif.isFailed =
      [.failed ("导出 " ++ t.kind ++ " 失败: " ++ e)] := by
  induction ts generalizing i st with
  | nil => simp at ht
  | cons a ts ih =>
    cases i with
    | zero =>
      simp only [List.getElem?_cons_zero, Option.some.injEq] at ht
      subst ht
      refine ⟨?_, ?_, ?_⟩ <;>
        simp [run_tasks, he, Notif.isFailed, List.range_succ]
    | succ i =>
      have hf : a.fails = none := hpre 0 a (Nat.succ_pos i) (by simp)
      simp only [run_tasks, hf]
      obtain ⟨h1, h2, h3⟩ := ih i (by simpa using ht)
        (fun j u hj hu => hpre (j + 1) u (by omega) (by simpa using hu)) (st + 1)
      refine ⟨?_, h2, ?_⟩
      · simp only [h1, map_range_shift]
      · simp only [List.filter_append, task_notifs_no_failed, h3,
          List.nil_append]

/-- Helper: when the first failing task is at index `i`, the loop's
notifications are the blocks of the earlier (succeeding) tasks in index
order, followed by the failing task's initial progress emission and the
failure notification. -/
theorem run_tasks_fail_notifs (n : Nat) (ts : List MTask) (i : Nat) (t : MTask)
    (e : String) (ht : ts[i]? = some t) (he : t.fails = some e)
    (hpre : ∀ j u, j < i → ts[j]? = some u → u.fails = none) (st : Nat) :
    (run_tasks n st ts).2.1 =
      (List.enumFrom st (ts.take i)).flatMap
        (fun p => task_notifs n p.1 p.2) ++
        [.progress (base_progress n (st + i))
           ("正在导出 " ++ t.output_path ++ "..."),
         .failed ("导出 " ++ t.kind ++ " 失败: " ++ e)] := by
  induction ts generalizing i st with
  | nil => simp at ht
  | cons a ts ih =>
    cases i with
    | zero =>
      simp only [List.getElem?_cons_zero, Option.some.injEq] at ht
      subst ht
      simp [run_tasks, he]
    | succ i =>
      have hf : a.fails = none := hpre 0 a (Nat.succ_pos i) (by simp)
      have harith : st + (i + 1) = st + 1 + i := by omega
      rw [harith]
      simp only [run_tasks, hf, List.take_succ_cons, List.enumFrom,
        List.flatMap_cons, List.append_assoc]
      rw [ih i (by simpa using ht)
        (fun j u hj hu => hpre (j + 1) u (by omega) (by simpa using hu)) (st + 1)]

/-- The conclusion of claim C6, as a named predicate: when task `i` is the
first failing task, the session executes exactly tasks `0..i` (none after
`i`), emits exactly one failure notification, and that notification's
message — `"导出 " ++ kind ++ " 失败: " ++ e` — contains both the kind of
task `i` and the description `e` of the triggering error. -/
def FailFastSpec (tasks : List MTask) (ep : List (String × String))
    (epf : Bool) (dir : String) (i : Nat) (t : MTask) (e : String) : Prop :=
  (run_session tasks ep epf dir).executed = List.range (i + 1) ∧
  (∀ j ∈ (run_session tasks ep epf dir).executed, j ≤ i) ∧
  ((run_session tasks ep epf dir).notifs.filter Notif.isFailed).length = 1 ∧
  (run_session tasks ep epf dir).notifs.filter Notif.isFailed =
    [.failed ("导出 " ++ t.kind ++ " 失败: " ++ e)] ∧
  (∃ s1 s2, "导出 " ++ t.kind ++ " 失败: " ++ e = s1 ++ t.kind ++ s2) ∧
  (∃ s1 s2, "导出 " ++ t.kind ++ " 失败: " ++ e = s1 ++ e ++ s2)

/-- C6: if executing task `i` raises an error (all earlier tasks
succeeding), no task after `i` is executed, exactly one failed notification
is emitted for the session, and its message contains both the kind of task
`i` and the description of the triggering error. -/
theorem task_failure_aborts (tasks : List MTask) (ep : List (String × String))
    (epf : Bool) (dir : String) (i : Nat) (t : MTask) (e : String)
    (ht : tasks[i]? = some t) (he : t.fails = some e)
    (hpre : ∀ j u, j < i → tasks[j]? = some u → u.fails = none) :
    FailFastSpec tasks ep epf dir i t e := by
  have hne : tasks.isEmpty = false := by
    cases tasks with
    | nil => simp at ht
    | cons a l => rfl
  obtain ⟨h1, h2, h3⟩ := run_tasks_fail tasks.length tasks i t e ht he hpre 0
  have hsess : run_session tasks ep epf dir =
      ⟨(run_tasks tasks.length 0 tasks).1,
       (run_tasks tasks.length 0 tasks).2.1, none⟩ := by
    unfold run_session
    rw [hne]
    simp only [Bool.false_eq_true, if_false, h2]
  unfold FailFastSpec
  rw [hsess]
  have hexec : (run_tasks tasks.length 0 tasks).1 = List.range (i + 1) := by
    rw [h1]
    simp
  refine ⟨hexec, ?_, by rw [h3]; rfl, h3, ?_, ?_⟩
  · intro j hj
    rw [hexec] at hj
    simp only [List.mem_range] at hj
    omega
  · exact ⟨"导出 ", " 失败: " ++ e, by rw [String.append_assoc]⟩
  · exact ⟨"导出 " ++ t.kind ++ " 失败: ", "", by rw [String.append_empty]⟩

/-- A two-task list whose second task raises. -/
def cexFailTasks : List MTask :=
  [⟨"logo", "logo.argb", .image, none⟩,
   ⟨"overlay", "overlay.argb", .image, some "disk full"⟩]

/-- The failing task of `cexFailTasks`. -/
def cexFailTask : MTask := ⟨"overlay", "overlay.argb", .image, some "disk full"⟩

/-- Witness for C6: second of two tasks raises "disk full". -/
theorem task_failure_aborts_witness :
    (cexFailTasks[1]? = some cexFailTask ∧
     cexFailTask.fails = some "disk full" ∧
     (∀ j u, j < 1 → cexFailTasks[j]? = some u → u.fails = none)) ∧
    FailFastSpec cexFailTasks [] false "out" 1 cexFailTask "disk full" :=
  ⟨⟨by decide, by decide,
    fun j u hj hu => by
      have hj0 : j = 0 := by omega
      subst hj0
      simp only [cexFailTasks, List.getElem?_cons_zero, Option.some.injEq] at hu
      rw [← hu]⟩,
   task_failure_aborts cexFailTasks [] false "out" 1 cexFailTask "disk full"
     (by decide) (by decide)
     (fun j u hj hu => by
       have hj0 : j = 0 := by omega
       subst hj0
       simp only [cexFailTasks, List.getElem?_cons_zero, Option.some.injEq] at hu
       rw [← hu])⟩

/-- The conclusion of claim C7, as a named predicate: absent a write
failure, `epconfig.txt` is written — holding exactly one `key=value` line
per entry in insertion order — if and only if every task succeeds and the
manifest map is non-empty; if every task succeeds but the write raises, the
file is not (successfully) written yet the session still ends with the
success notification as its last notification (not a failure). -/
def ManifestSpec (tasks : List MTask) (ep : List (String × String))
    (epf : Bool) (dir : String) : Prop :=
  (epf = false →
    ((run_session tasks ep epf dir).manifest =
        some (ep.map (fun kv => kv.1 ++ "=" ++ kv.2)) ↔
      ((∀ t ∈ tasks, t.fails = none) ∧ ep ≠ []))) ∧
  ((¬ ∀ t ∈ tasks, t.fails = none) →
    (run_session tasks ep epf dir).manifest = none) ∧
  ((∀ t ∈ tasks, t.fails = none) →
    (run_session tasks ep epf dir).notifs.getLast? =
      some (.completed ("成功导出 " ++ toString tasks.length ++ " 个文件到 " ++ dir)))

/-- C7: for every non-empty session, the manifest file is written iff every
task succeeds and the supplied manifest map is non-empty, in which case its
content is one `key=value` line per entry in insertion order; a failure
while writing the manifest is swallowed and the session still terminates
with the Completed notification last. -/
theorem manifest_behaviour (tasks : List MTask) (ep : List (String × String))
    (epf : Bool) (dir : String) (hne : tasks ≠ []) :
    ManifestSpec tasks ep epf dir := by
  have hempty : tasks.isEmpty = false := by
    cases tasks with
    | nil => exact absurd rfl hne
    | cons a l => rfl
  unfold ManifestSpec
  by_cases hall : ∀ t ∈ tasks, t.fails = none
  · have hflag : (run_tasks tasks.length 0 tasks).2.2 = true :=
      (run_tasks_ok_iff tasks.length 0 tasks).2 hall
    have hsess : run_session tasks ep epf dir =
        ⟨(run_tasks tasks.length 0 tasks).1,
         (run_tasks tasks.length 0 tasks).2.1 ++
           [.progress 100 "导出完成",
            .completed ("成功导出 " ++ toString tasks.length ++ " 个文件到 " ++ dir)],
         if ep.isEmpty then none
         else if epf then none
         else some (ep.map (fun kv => kv.1 ++ "=" ++ kv.2))⟩ := by
      unfold run_session
      rw [hempty]
      simp only [Bool.false_eq_true, if_false, hflag, if_true]
    rw [hsess]
    refine ⟨?_, fun h => absurd hall h, fun _ => ?_⟩
    · intro hepf
      subst hepf
      cases hep : ep.isEmpty with
      | true =>
        have : ep = [] := List.isEmpty_iff.1 hep
        simp [this]
      | false =>
        have : ep ≠ [] := by
          intro h
          rw [h] at hep
          simp at hep
        simp only [hep, Bool.false_eq_true, if_false]
        simp [this]
        exact hall
    · rw [show ([Notif.progress 100 "导出完成",
        Notif.completed ("成功导出 " ++ toString tasks.length ++ " 个文件到 " ++ dir)]) =
          [Notif.progress 100 "导出完成"] ++
          [Notif.completed ("成功导出 " ++ toString tasks.length ++ " 个文件到 " ++ dir)]
        from rfl, ← List.append_assoc, List.getLast?_concat]
  · have hflag : (run_tasks tasks.length 0 tasks).2.2 = false := by
      cases hb : (run_tasks tasks.length 0 tasks).2.2 with
      | true => exact absurd ((run_tasks_ok_iff tasks.length 0 tasks).1 hb) hall
      | false => rfl
    have hsess : run_session tasks ep epf dir =
        ⟨(run_tasks tasks.length 0 tasks).1,
         (run_tasks tasks.length 0 tasks).2.1, none⟩ := by
      unfold run_session
      rw [hempty]
      simp only [Bool.false_eq_true, if_false, hflag]
    rw [hsess]
    refine ⟨?_, fun _ => rfl, fun h => absurd h hall⟩
    intro _
    simp [hall]

/-- A single always-succeeding task. -/
def cexOkTasks : List MTask := [⟨"logo", "logo.argb", .image, none⟩]

/-- Witness for C7: one succeeding task, a one-entry manifest, and a
failing manifest write. -/
theorem manifest_behaviour_witness :
    cexOkTasks ≠ [] ∧ ManifestSpec cexOkTasks [("a", "b")] true "out" :=
  ⟨by decide, manifest_behaviour cexOkTasks [("a", "b")] true "out" (by decide)⟩

/-- A one-task session: a video task with 11 frames. -/
def cexVideoTasks : List MTask := [⟨"loop", "loop.mp4", .video 11, none⟩]

/-- C5 counterexample: with a single 11-frame video task, the emitted
percentages are `[0, 0, 90, 80, 100]` — the frame-loop emission at frame 10
is `⌊(10/11)·100⌋ = 90`, yet the encoding-phase emission that follows it is
`⌊80/1⌋ = 80`, so within this single task the emitted percentages are not
non-decreasing, and in particular a frame-loop emission exceeds the
encoding-phase emission that follows it, contradicting the claim. -/
theorem video_progress_not_monotone :
    progressPcts (run_session cexVideoTasks [] false "out").notifs =
      [0, 0, 90, 80, 100] ∧
    ¬ List.Chain' (· ≤ ·)
      (progressPcts (run_session cexVideoTasks [] false "out").notifs) := by
  have hfilter : (List.range 11).filter (fun fi => fi % 10 == 0) = [0, 10] := by
    decide
  have hb : base_progress 1 0 = 0 := by
    norm_num [base_progress] <;> rfl
  have h0 : frame_progress 1 11 0 = 0 := by
    norm_num [frame_progress] <;> rfl
  have h90 : frame_progress 1 11 10 = 90 := by
    norm_num [frame_progress] <;> rfl
  have h80 : encode_progress 1 = 80 := by
    norm_num [encode_progress] <;> rfl
  have hmain : progressPcts (run_session cexVideoTasks [] false "out").notifs =
      [0, 0, 90, 80, 100] := by
    simp [run_session, cexVideoTasks, run_tasks, task_notifs, video_notifs,
      hfilter, hb, h0, h90, h80, progressPcts]
  refine ⟨hmain, ?_⟩
  rw [hmain]
  intro hch
  simp only [List.chain'_cons, List.chain'_singleton] at hch
  omega

/-- Helper: within one video task, the frame-loop percentages are
non-decreasing in the frame index. -/
theorem frame_progress_mono (n total fi fj : Nat) (h : fi ≤ fj) :
    frame_progress n total fi ≤ frame_progress n total fj := by
  unfold frame_progress
  have hle : ((fi : ℚ) / total) * ((100 : ℚ) / n) ≤
      ((fj : ℚ) / total) * ((100 : ℚ) / n) := by
    apply mul_le_mul_of_nonneg_right _ (by positivity)
    rcases Nat.eq_zero_or_pos total with h0 | h0
    · subst h0
      norm_num
    · have hq : (0 : ℚ) < total := by exact_mod_cast h0
      exact (div_le_div_iff_of_pos_right hq).2 (by exact_mod_cast h)
  have hfl := Int.floor_mono hle
  have h0 : 0 ≤ ⌊((fi : ℚ) / total) * ((100 : ℚ) / n)⌋ :=
    Int.floor_nonneg.2 (by positivity)
  omega

/-- The conclusion of the amended claim C5, as a named predicate, for any
session: the notification sequence is the per-task notification blocks in
strictly increasing task-index order — all of them, followed by the final
`progress 100` and the completion notification, when every task succeeds;
or the blocks of the tasks before the first failing task, followed by that
task's initial progress emission and the failure notification, when a task
fails.  Each task's block starts with `progress (base_progress n i)` where
`base_progress n i = ⌊i/n · 100⌋`; within a video task the frame-loop
emissions are non-decreasing in the frame index — but the fixed
encoding-phase emission `base + ⌊80/n⌋` that follows them may be lower than
a late frame-loop emission; and the terminal notification (completed, or
failed when a task fails) is the last notification of the session. -/
def ProgressSpec (tasks : List MTask) (ep : List (String × String))
    (epf : Bool) (dir : String) : Prop :=
  ((∀ t ∈ tasks, t.fails = none) →
    (run_session tasks ep epf dir).notifs =
      (List.enumFrom 0 tasks).flatMap
        (fun p => task_notifs tasks.length p.1 p.2) ++
        [.progress 100 "导出完成",
         .completed ("成功导出 " ++ toString tasks.length ++ " 个文件到 " ++ dir)]) ∧
  (∀ (i : Nat) (t : MTask) (e : String), tasks[i]? = some t → t.fails = some e →
    (∀ (j : Nat) (u : MTask), j < i → tasks[j]? = some u → u.fails = none) →
    (run_session tasks ep epf dir).notifs =
      (List.enumFrom 0 (tasks.take i)).flatMap
        (fun p => task_notifs tasks.length p.1 p.2) ++
        [.progress (base_progress tasks.length i)
           ("正在导出 " ++ t.output_path ++ "..."),
         .failed ("导出 " ++ t.kind ++ " 失败: " ++ e)]) ∧
  (∀ i t, (task_notifs tasks.length i t).head? =
    some (.progress (base_progress tasks.length i)
      ("正在导出 " ++ t.output_path ++ "..."))) ∧
  (∀ i, base_progress tasks.length i =
    (⌊((i : ℚ) / tasks.length) * 100⌋).toNat) ∧
  (∀ total fi fj, fi ≤ fj →
    frame_progress tasks.length total fi ≤ frame_progress tasks.length total fj) ∧
  ((∀ t ∈ tasks, t.fails = none) →
    (run_session tasks ep epf dir).notifs.getLast? =
      some (.completed ("成功导出 " ++ toString tasks.length ++ " 个文件到 " ++ dir))) ∧
  (∀ (i : Nat) (t : MTask) (e : String), tasks[i]? = some t → t.fails = some e →
    (∀ (j : Nat) (u : MTask), j < i → tasks[j]? = some u → u.fails = none) →
    (run_session tasks ep epf dir).notifs.getLast? =
      some (.failed ("导出 " ++ t.kind ++ " 失败: " ++ e)))

/-- C5 (amended): for every export session (any task count; the task list is
non-empty, as the service refuses to start an empty session), progress
notifications are emitted in strictly increasing task order — the per-task
notification blocks appear in task-index order, ending with the first
failing task's block when a task fails — with the global percentage before
task `i` of `n` equal to `⌊i/n · 100⌋`; within a task the frame-loop
emissions are non-decreasing in the frame index, but the fixed
encoding-phase emission `base + ⌊80/n⌋` that ends a video task's block may
be lower than a preceding frame-loop emission (it is not a monotonicity
bound); the terminal notification (completed, or the failure notification
of the first failing task) is the last notification of the session. -/
theorem progress_ordering (tasks : List MTask) (ep : List (String × String))
    (epf : Bool) (dir : String) (hne : tasks ≠ []) :
    ProgressSpec tasks ep epf dir := by
  have hempty : tasks.isEmpty = false := by
    cases tasks with
    | nil => exact absurd rfl hne
    | cons a l => rfl
  have hsuccess : (∀ t ∈ tasks, t.fails = none) →
      (run_session tasks ep epf dir).notifs =
        (List.enumFrom 0 tasks).flatMap
          (fun p => task_notifs tasks.length p.1 p.2) ++
          [.progress 100 "导出完成",
           .completed ("成功导出 " ++ toString tasks.length ++ " 个文件到 " ++ dir)] := by
    intro hall
    have hrt := run_tasks_notifs_ok tasks.length 0 tasks hall
    unfold run_session
    rw [hempty]
    simp only [Bool.false_eq_true, if_false, hrt, if_true]
  have hfailcase : ∀ i t e, tasks[i]? = some t → t.fails = some e →
      (∀ j u, j < i → tasks[j]? = some u → u.fails = none) →
      (run_session tasks ep epf dir).notifs =
        (List.enumFrom 0 (tasks.take i)).flatMap
          (fun p => task_notifs tasks.length p.1 p.2) ++
          [.progress (base_progress tasks.length i)
             ("正在导出 " ++ t.output_path ++ "..."),
           .failed ("导出 " ++ t.kind ++ " 失败: " ++ e)] := by
    intro i t e ht he hpre
    obtain ⟨h1, h2, h3⟩ := run_tasks_fail tasks.length tasks i t e ht he hpre 0
    have hnotifs := run_tasks_fail_notifs tasks.length tasks i t e ht he hpre 0
    unfold run_session
    rw [hempty]
    simp only [Bool.false_eq_true, if_false, h2]
    rw [hnotifs]
    simp only [Nat.zero_add]
  unfold ProgressSpec
  refine ⟨hsuccess, hfailcase, fun i t => rfl, fun i => rfl,
    fun total fi fj h => frame_progress_mono tasks.length total fi fj h,
    ?_, ?_⟩
  · intro hall
    rw [hsuccess hall]
    rw [show ([Notif.progress 100 "导出完成",
      Notif.completed ("成功导出 " ++ toString tasks.length ++ " 个文件到 " ++ dir)]) =
        [Notif.progress 100 "导出完成"] ++
        [Notif.completed ("成功导出 " ++ toString tasks.length ++ " 个文件到 " ++ dir)]
      from rfl, ← List.append_assoc, List.getLast?_concat]
  · intro i t e ht he hpre
    rw [hfailcase i t e ht he hpre]
    rw [show ([Notif.progress (base_progress tasks.length i)
        ("正在导出 " ++ t.output_path ++ "..."),
      Notif.failed ("导出 " ++ t.kind ++ " 失败: " ++ e)]) =
        [Notif.progress (base_progress tasks.length i)
          ("正在导出 " ++ t.output_path ++ "...")] ++
        [Notif.failed ("导出 " ++ t.kind ++ " 失败: " ++ e)]
      from rfl, ← List.append_assoc, List.getLast?_concat]

/-- A two-task session for the C5 witness: an image task then a 20-frame
video task, both succeeding. -/
def wTasks : List MTask :=
  [⟨"logo", "logo.argb", .image, none⟩,
   ⟨"loop", "loop.mp4", .video 20, none⟩]

/-- Witness for C5 (amended): a two-task session. -/
theorem progress_ordering_witness :
    wTasks ≠ [] ∧ ProgressSpec wTasks [] false "out" :=
  ⟨by decide, progress_ordering wTasks [] false "out" (by decide)⟩

/-- Witness for C9: flag first set at row 1 of a 2-row bitmap. -/
theorem codec_cancellation_witness :
    ((fun y => decide (1 ≤ y)) 1 = true ∧ (∀ j, j < 1 → (fun y => decide (1 ≤ y)) j = false) ∧
      1 < wBmp.h) ∧
    CancelSpec (fun y => decide (1 ≤ y)) wBmp 1 :=
  ⟨⟨by decide, by decide, by decide⟩,
    codec_cancellation (fun y => decide (1 ≤ y)) wBmp 1 (by decide) (by decide)
      (by decide)⟩

end AssetMaker
